import Mathlib

/-
Verification of the core counting and post-processing logic of the
SMART-PASSENGER-COUNTER repository.

The development shallowly embeds, over exact rational arithmetic:
  - the greedy non-max suppression of src/core/yolo_pipeline.py (YOLOPipeline.nms),
  - the single-line counter of src/core/passenger_counter.py (PassengerCounter),
  - the multi-door counter of src/core/directional_counter_multi.py (MultiDoorCounter),
  - the door reset loop of src/server/app.py (route /api/reset),
  - the bounded-queue enqueue policy of src/core/input_reader.py (InputReader._reader).

Python floats are modelled as rationals, Python dicts as (total or optional-valued)
functions, and the frame queue as a list with its front holding the oldest element.
Definitions come first, followed by the supporting lemmas and the claim theorems.
-/

namespace SPC

/- ### Definitions -/

/-- Number of strict false-to-true transitions in a boolean sequence. -/
def flips : List Bool → Nat
  | a :: b :: rest => (if a = false ∧ b = true then 1 else 0) + flips (b :: rest)
  | _ => 0

/-- Sequence of observations of a state along a run of a step function,
including the initial state. -/
def obsTrace {σ α : Type} (step : σ → α → σ) (obs : σ → Bool) :
    σ → List α → List Bool
  | st, [] => [obs st]
  | st, c :: rest => obs st :: obsTrace step obs (step st c) rest

/-- Row of the array handed to YOLOPipeline.nms: corner coordinates,
confidence score and class id. -/
structure Box where
  x1 : ℚ
  y1 : ℚ
  x2 : ℚ
  y2 : ℚ
  score : ℚ
  classId : ℚ
deriving DecidableEq

/-- Source line: areas = (x2 - x1) * (y2 - y1). -/
def area (b : Box) : ℚ := (b.x2 - b.x1) * (b.y2 - b.y1)

/-- Clamped intersection area: w = max(0, xx2 - xx1), h = max(0, yy2 - yy1),
inter = w * h, with xx1 = max(x1[i], x1[j]) and so on. -/
def interArea (a b : Box) : ℚ :=
  max 0 (min a.x2 b.x2 - max a.x1 b.x1) * max 0 (min a.y2 b.y2 - max a.y1 b.y1)

/-- Denominator of the IoU ratio, with the 1e-6 epsilon of the source. -/
def iouDenom (a b : Box) : ℚ := area a + area b - interArea a b + 1 / 1000000

/-- Source line: iou = inter / (areas[i] + areas[order[1:]] - inter + 1e-6). -/
def iou (a b : Box) : ℚ := interArea a b / iouDenom a b

/-- Descending-confidence order used by scores.argsort()[::-1]; the tie order of
the unstable default sort of numpy is unspecified, modelled here as a stable sort. -/
def scoreGE (a b : Box) : Prop := b.score ≤ a.score

instance : DecidableRel scoreGE := fun a b => inferInstanceAs (Decidable (b.score ≤ a.score))

instance : IsTotal Box scoreGE := ⟨fun a b => le_total b.score a.score⟩

instance : IsTrans Box scoreGE := ⟨fun _ _ _ h1 h2 => le_trans h2 h1⟩

/-- Greedy suppression loop: keep the best remaining box, discard every later
box whose IoU with it exceeds the threshold, and continue. -/
def nmsLoop (thresh : ℚ) : List Box → List Box
  | [] => []
  | b :: rest => b :: nmsLoop thresh (rest.filter (fun c => decide (iou b c ≤ thresh)))
termination_by l => l.length
decreasing_by
  simp only [List.length_cons]
  exact Nat.lt_succ_of_le (List.length_filter_le _ _)

/-- YOLOPipeline.nms: sort by descending confidence, then run the greedy loop. -/
def nms (boxes : List Box) (thresh : ℚ) : List Box :=
  nmsLoop thresh (List.insertionSort scoreGE boxes)

/-- Bounding box handed to PassengerCounter.update as [x1, y1, x2, y2]. -/
structure BBox where
  x1 : ℚ
  y1 : ℚ
  x2 : ℚ
  y2 : ℚ
deriving DecidableEq

/-- Counting line: {"name": ..., "coords": [x1, y1, x2, y2], "direction": ...}. -/
structure PCLine where
  name : String
  x1 : ℚ
  y1 : ℚ
  x2 : ℚ
  y2 : ℚ
  direction : String
deriving DecidableEq

/-- Entry of the track_states dict: {"crossed": bool, "direction": str}. -/
structure TrackFlag where
  crossed : Bool
  dir : String
deriving DecidableEq

/-- State of a PassengerCounter instance.  The dicts track_positions and
track_states are modelled as optional-valued functions, total_crossed as a
finite set of track ids. -/
structure PCState where
  lines : List PCLine
  trackPositions : Nat → Option (ℚ × ℚ)
  trackStates : Nat → Option TrackFlag
  inCount : Nat
  outCount : Nat
  totalCrossed : Finset Nat

/-- Default line list installed by the constructor when lines is None. -/
def pcDefaultLines : List PCLine := [⟨"entry", 0, 360, 1280, 360, "vertical"⟩]

/-- Freshly constructed PassengerCounter. -/
def pcInit (lines : Option (List PCLine)) : PCState :=
  { lines := lines.getD pcDefaultLines,
    trackPositions := fun _ => none,
    trackStates := fun _ => none,
    inCount := 0, outCount := 0, totalCrossed := ∅ }

/-- IN branch: guarded by the process-wide crossed set; increments in_count,
latches the track and tags it.  The returned number is the new_in delta. -/
def fireIn (tid : Nat) (st : PCState) : PCState × Nat :=
  if tid ∈ st.totalCrossed then (st, 0)
  else ({ st with inCount := st.inCount + 1,
                  totalCrossed := insert tid st.totalCrossed,
                  trackStates := fun u => if u = tid then some ⟨true, "in"⟩ else st.trackStates u },
        1)

/-- OUT branch, symmetric to fireIn. -/
def fireOut (tid : Nat) (st : PCState) : PCState × Nat :=
  if tid ∈ st.totalCrossed then (st, 0)
  else ({ st with outCount := st.outCount + 1,
                  totalCrossed := insert tid st.totalCrossed,
                  trackStates := fun u => if u = tid then some ⟨true, "out"⟩ else st.trackStates u },
        1)

/-- Body of one line iteration without the trailing position write: the
crossing test against the previous position prev, skipped on first sighting.
Vertical lines compare the y coordinate against ly1, horizontal ones the x
coordinate against lx1; each test is a strict previous-side test paired with a
non-strict current-side test, with the OUT test in an elif. -/
def lineStepCore (tid : Nat) (cx cy : ℚ) (prev : Option (ℚ × ℚ))
    (acc : PCState × Nat × Nat) (line : PCLine) : PCState × Nat × Nat :=
  match prev with
  | none => acc
  | some pp =>
    if line.direction = "vertical" then
      if pp.2 < line.y1 ∧ line.y1 ≤ cy then
        let r := fireIn tid acc.1
        (r.1, acc.2.1 + r.2, acc.2.2)
      else if line.y1 < pp.2 ∧ cy ≤ line.y1 then
        let r := fireOut tid acc.1
        (r.1, acc.2.1, acc.2.2 + r.2)
      else acc
    else if line.direction = "horizontal" then
      if pp.1 < line.x1 ∧ line.x1 ≤ cx then
        let r := fireIn tid acc.1
        (r.1, acc.2.1 + r.2, acc.2.2)
      else if line.x1 < pp.1 ∧ cx ≤ line.x1 then
        let r := fireOut tid acc.1
        (r.1, acc.2.1, acc.2.2 + r.2)
      else acc
    else acc

/-- Unconditional write of the current centroid into track_positions. -/
def setPos (tid : Nat) (cx cy : ℚ) (st : PCState) : PCState :=
  { st with trackPositions := fun u => if u = tid then some (cx, cy) else st.trackPositions u }

/-- One iteration of the for-line-in-self.lines loop as written in the
source: the previous position is re-read from the state at the top of the
iteration and the centroid is stored at the bottom of the same iteration. -/
def lineStep (tid : Nat) (cx cy : ℚ) (acc : PCState × Nat × Nat)
    (line : PCLine) : PCState × Nat × Nat :=
  let r := lineStepCore tid cx cy (acc.1.trackPositions tid) acc line
  (setPos tid cx cy r.1, r.2)

/-- Processing of one (track_id, box) pair: fold the line iteration over all
configured lines. -/
def objStep (acc : PCState × Nat × Nat) (ob : Nat × BBox) : PCState × Nat × Nat :=
  acc.1.lines.foldl (lineStep ob.1 ((ob.2.x1 + ob.2.x2) / 2) ((ob.2.y1 + ob.2.y2) / 2)) acc

/-- PassengerCounter.update: missing track ids default to the box positions
0..len(boxes)-1; returns the final state with the (new_in, new_out) deltas. -/
def pcUpdate (st : PCState) (boxes : List BBox) (trackIds : Option (List Nat)) :
    PCState × Nat × Nat :=
  let ids := trackIds.getD (List.range boxes.length)
  (List.zip ids boxes).foldl objStep (st, 0, 0)

/-- One update call viewed as a state transformer. -/
def pcStep (st : PCState) (c : List BBox × Option (List Nat)) : PCState :=
  (pcUpdate st c.1 c.2).1

/-- Result record of PassengerCounter.get_counts. -/
structure PCCounts where
  inCnt : ℤ
  outCnt : ℤ
  total : ℤ
deriving DecidableEq

/-- PassengerCounter.get_counts: {"in": in_count, "out": out_count,
"total": in_count - out_count}. -/
def pcGetCounts (st : PCState) : PCCounts :=
  ⟨st.inCount, st.outCount, (st.inCount : ℤ) - st.outCount⟩

/-- PassengerCounter.reset: zero both counters and clear the three per-track
containers. -/
def pcReset (st : PCState) : PCState :=
  { st with inCount := 0, outCount := 0, totalCrossed := ∅,
            trackPositions := fun _ => none, trackStates := fun _ => none }

/-- Modelled from the spec: the per-line loop body as the specification
describes it — the crossing test of every line compares against the centroid
stored at the end of the previous update call, and the stored centroid is
rewritten only once, after all lines have been checked. -/
def objStepSpecC6 (acc : PCState × Nat × Nat) (ob : Nat × BBox) : PCState × Nat × Nat :=
  let cx := (ob.2.x1 + ob.2.x2) / 2
  let cy := (ob.2.y1 + ob.2.y2) / 2
  let prev := acc.1.trackPositions ob.1
  let r := acc.1.lines.foldl (lineStepCore ob.1 cx cy prev) acc
  (setPos ob.1 cx cy r.1, r.2)

/-- Modelled from the spec: PassengerCounter.update as claimed, built from
objStepSpecC6 instead of the per-line position rewrite of the source. -/
def pcUpdateSpecC6 (st : PCState) (boxes : List BBox) (trackIds : Option (List Nat)) :
    PCState × Nat × Nat :=
  let ids := trackIds.getD (List.range boxes.length)
  (List.zip ids boxes).foldl objStepSpecC6 (st, 0, 0)

/-- Bookkeeping potential: counter total minus size of the crossed set. -/
def pcPot (st : PCState) : ℤ := (st.inCount : ℤ) + st.outCount - st.totalCrossed.card

/-- Endpoints of one door line, as the 4-element coordinate list of the config. -/
structure Seg where
  x1 : ℚ
  y1 : ℚ
  x2 : ℚ
  y2 : ℚ
deriving DecidableEq

/-- Door configuration entry: {"line_A": [...], "line_B": [...]}. -/
structure Door where
  lineA : Seg
  lineB : Seg
deriving DecidableEq

/-- LineCrossState: two bounded side histories (deques with maxlen 7), the last
compound side label, and the two one-shot latches.  The four label strings
"A-pos-B-pos" .. "A-neg-B-neg" are represented by a pair of booleans, true
standing for the "pos" component; the substring tests of the source, "A-pos" in label
and so on read off exactly these components. -/
structure LineCrossState where
  sideAHistory : List ℚ
  sideBHistory : List ℚ
  lastSide : Option (Bool × Bool)
  hasCountedEntry : Bool
  hasCountedExit : Bool
deriving DecidableEq

/-- Fresh LineCrossState, as LineCrossState.__init__ builds it. -/
def LineCrossState.init : LineCrossState := ⟨[], [], none, false, false⟩

/-- Per-door counters {enter, exit, occupancy}. -/
structure DoorCounts where
  enter : ℤ
  exits : ℤ
  occupancy : ℤ
deriving DecidableEq

/-- State of a MultiDoorCounter instance.  The nested dict
track_id -> door_name -> LineCrossState is modelled as a total function whose
default value is the fresh state the source installs on first sighting; the
counts dict is a function that is zero off the configured door names. -/
structure MState where
  doors : List (String × Door)
  trackStates : Nat → String → LineCrossState
  counts : String → DoorCounts

/-- Freshly constructed MultiDoorCounter over a door config. -/
def mInit (cfg : List (String × Door)) : MState :=
  ⟨cfg, fun _ _ => LineCrossState.init, fun _ => ⟨0, 0, 0⟩⟩

/-- MultiDoorCounter.point_side: the 2-D cross product
(x - x1)(y2 - y1) - (y - y1)(x2 - x1). -/
def pointSide (x y x1 y1 x2 y2 : ℚ) : ℚ :=
  (x - x1) * (y2 - y1) - (y - y1) * (x2 - x1)

/-- Append to a deque with maxlen 7: the oldest sample is evicted when the
window is full. -/
def pushHist (h : List ℚ) (v : ℚ) : List ℚ :=
  let g := h ++ [v]
  g.drop (g.length - 7)

/-- Fraction of history samples on the non-negative side:
sum(1 for v in hist if v >= 0) / len(hist). -/
def posFrac (h : List ℚ) : ℚ :=
  ((h.filter (fun v => decide (0 ≤ v))).length : ℚ) / (h.length : ℚ)

/-- Pointwise update of the nested per-track per-door state dict. -/
def updTS (tid : Nat) (dname : String) (v : LineCrossState)
    (f : Nat → String → LineCrossState) : Nat → String → LineCrossState :=
  fun u d => if u = tid ∧ d = dname then v else f u d

/-- Transition of one LineCrossState under the freshly pushed histories and
the new compound label cur; returns the new state together with the enter and
exit firing flags.  On first observation (last_side is None) the label is
stored and nothing fires. -/
def newLCS (s : LineCrossState) (hA hB : List ℚ) (cur : Bool × Bool) :
    LineCrossState × Bool × Bool :=
  match s.lastSide with
  | none =>
    ({ s with sideAHistory := hA, sideBHistory := hB, lastSide := some cur }, false, false)
  | some prev =>
    let fe := prev.1 && !cur.1 && !s.hasCountedEntry
    let fx := prev.2 && !cur.2 && !s.hasCountedExit
    ({ sideAHistory := hA, sideBHistory := hB, lastSide := some cur,
       hasCountedEntry := s.hasCountedEntry || fe,
       hasCountedExit := s.hasCountedExit || fx }, fe, fx)

/-- Counter bump for one door: enter and occupancy rise on an enter event,
exit rises and occupancy falls on an exit event. -/
def bumpCounts (c : DoorCounts) (fe fx : Bool) : DoorCounts :=
  { enter := c.enter + (if fe then 1 else 0),
    exits := c.exits + (if fx then 1 else 0),
    occupancy := c.occupancy + (if fe then 1 else 0) - (if fx then 1 else 0) }

/-- One iteration of the for-door-name-dcfg-in-self.doors.items loop for
the tracked object tid at centroid (cx, cy). -/
def doorStep (tid : Nat) (cx cy : ℚ) (st : MState) (e : String × Door) : MState :=
  let s := st.trackStates tid e.1
  let hA := pushHist s.sideAHistory
    (pointSide cx cy e.2.lineA.x1 e.2.lineA.y1 e.2.lineA.x2 e.2.lineA.y2)
  let hB := pushHist s.sideBHistory
    (pointSide cx cy e.2.lineB.x1 e.2.lineB.y1 e.2.lineB.x2 e.2.lineB.y2)
  let cur := (decide ((1 : ℚ) / 2 < posFrac hA), decide ((1 : ℚ) / 2 < posFrac hB))
  let r := newLCS s hA hB cur
  { st with
    trackStates := updTS tid e.1 r.1 st.trackStates,
    counts := fun d => if d = e.1 then bumpCounts (st.counts e.1) r.2.1 r.2.2 else st.counts d }

/-- Processing of one entry of the tracked_objects dict. -/
def objStepM (st : MState) (ob : Nat × BBox) : MState :=
  st.doors.foldl (doorStep ob.1 ((ob.2.x1 + ob.2.x2) / 2) ((ob.2.y1 + ob.2.y2) / 2)) st

/-- MultiDoorCounter.update over one tracked_objects dict, in iteration order. -/
def mUpdate (st : MState) (objs : List (Nat × BBox)) : MState :=
  objs.foldl objStepM st

/-- Reset loop of the /api/reset route in src/server/app.py: the counters of every door are zeroed; the per-track states are not touched. -/
def doorReset (st : MState) : MState :=
  { st with counts := fun _ => ⟨0, 0, 0⟩ }

/-- Reader-side state: the bounded frame queue (front = oldest frame) and the
dropped_frames counter.  Frames are abstracted to identifiers. -/
structure RState where
  queue : List Nat
  dropped : Nat
deriving DecidableEq

/-- Python queue.Queue(maxsize=B).full(): true iff B is positive and the queue
holds at least B items (maxsize <= 0 means unbounded, never full). -/
def queueFull (B : Nat) (q : List Nat) : Prop := 0 < B ∧ B ≤ q.length

instance (B : Nat) (q : List Nat) : Decidable (queueFull B q) :=
  inferInstanceAs (Decidable (0 < B ∧ B ≤ q.length))

/-- Enqueue step of the background reader: when the queue is full, get_nowait
removes the oldest buffered frame and the drop counter rises; the fresh frame
is then enqueued.  In this single-producer single-consumer model the put
always finds room, so the timeout branch of the source is unreachable. -/
def readerEnqueue (B : Nat) (st : RState) (f : Nat) : RState :=
  let st1 := if queueFull B st.queue
             then { queue := st.queue.tail, dropped := st.dropped + 1 }
             else st
  { st1 with queue := st1.queue ++ [f] }

/-- Interleaving alphabet: a producer enqueue of a frame, or a consumer
dequeue (InputReader.get_frame). -/
inductive REvent where
  | enq : Nat → REvent
  | deq : REvent

/-- One interleaved step of the two threads. -/
def rStep (B : Nat) (st : RState) (ev : REvent) : RState :=
  match ev with
  | .enq f => readerEnqueue B st f
  | .deq => { st with queue := st.queue.tail }

/-- Run of the queue under an arbitrary producer/consumer interleaving. -/
def rRun (B : Nat) (st : RState) (evs : List REvent) : RState := evs.foldl (rStep B) st

/-- Number of frames actually discarded along a run. -/
def discards (B : Nat) : RState → List REvent → Nat
  | _, [] => 0
  | st, ev :: rest =>
    (match ev with
     | .enq _ => if queueFull B st.queue then 1 else 0
     | .deq => 0) + discards B (rStep B st ev) rest

/-- Single door "door1" with horizontal line A at y = 10 and line B at y = 20;
point_side is positive below these lines exactly for y < 10 and y < 20. -/
def door1Cfg : List (String × Door) := [("door1", ⟨⟨0, 10, 10, 10⟩, ⟨0, 20, 10, 20⟩⟩)]

/-- Axis-aligned box of width 10 and height 10 with centroid (5, y). -/
def bY (y : ℚ) : BBox := ⟨0, y - 5, 10, y + 5⟩

/-- Seven frames strictly on the positive side of line A (y = 5) followed by
seven frames strictly on its negative side (y = 15, still positive for B). -/
def c3Phase1 : List (List (Nat × BBox)) :=
  List.replicate 7 [(1, bY 5)] ++ List.replicate 7 [(1, bY 15)]

/-- Seven frames strictly on the positive side of line B (y = 15) followed by
seven frames strictly on its negative side (y = 25). -/
def c3Phase2 : List (List (Nat × BBox)) :=
  List.replicate 7 [(1, bY 15)] ++ List.replicate 7 [(1, bY 25)]

/-- Counting line far from the action, checked first. -/
def c6LineTop : PCLine := ⟨"l1", 0, 100, 10, 100, "vertical"⟩

/-- Counting line at y = 5, checked second. -/
def c6LineLow : PCLine := ⟨"l2", 0, 5, 10, 5, "vertical"⟩

/-- Two-line counter state. -/
def c6State0 : PCState := pcInit (some [c6LineTop, c6LineLow])

/-- Frame-1 box with centroid (5, 0), above line l2. -/
def c6Box0 : BBox := ⟨0, 0, 10, 0⟩

/-- Frame-2 box with centroid (5, 10), below line l2. -/
def c6Box1 : BBox := ⟨0, 10, 10, 10⟩

/-- State after the first update call. -/
def c6State1 : PCState := (pcUpdate c6State0 [c6Box0] none).1

/-- Door state after track 1 has entered door1, then the /api/reset loop. -/
def c8AfterReset : MState := doorReset (c3Phase1.foldl mUpdate (mInit door1Cfg))

/-- The same track crosses line A again after the reset: seven frames on the
positive side of A and seven on its negative side. -/
def c8Recross : List (List (Nat × BBox)) :=
  List.replicate 7 [(1, bY 5)] ++ List.replicate 7 [(1, bY 15)]

/- ### Lemmas and claim theorems -/

theorem obsTrace_ne_nil {σ α : Type} (step : σ → α → σ) (obs : σ → Bool)
    (st : σ) (calls : List α) : obsTrace step obs st calls ≠ [] := by
  cases calls <;> simp [obsTrace]

theorem obsTrace_head {σ α : Type} (step : σ → α → σ) (obs : σ → Bool)
    (st : σ) (calls : List α) :
    ∃ tl, obsTrace step obs st calls = obs st :: tl := by
  cases calls <;> exact ⟨_, rfl⟩

theorem obsTrace_all_true {σ α : Type} (step : σ → α → σ) (obs : σ → Bool)
    (hmono : ∀ st c, obs st = true → obs (step st c) = true) :
    ∀ (calls : List α) (st : σ), obs st = true →
      ∀ b ∈ obsTrace step obs st calls, b = true := by
  intro calls
  induction calls with
  | nil => intro st hst b hb; simp [obsTrace] at hb; simpa [hb] using hst
  | cons c rest ih =>
    intro st hst b hb
    simp only [obsTrace, List.mem_cons] at hb
    rcases hb with hb | hb
    · simpa [hb] using hst
    · exact ih (step st c) (hmono st c hst) b hb

theorem flips_of_all_true : ∀ (l : List Bool), (∀ b ∈ l, b = true) → flips l = 0 := by
  intro l
  induction l with
  | nil => intro _; rfl
  | cons a l ih =>
    intro h
    cases l with
    | nil => rfl
    | cons b t =>
      have ha : a = true := h a (by simp)
      have hrest : ∀ x ∈ b :: t, x = true := fun x hx => h x (by simp [hx])
      simp [flips, ha, ih hrest]

theorem interArea_comm (a b : Box) : interArea a b = interArea b a := by
  unfold interArea
  rw [min_comm a.x2 b.x2, max_comm a.x1 b.x1, min_comm a.y2 b.y2, max_comm a.y1 b.y1]

theorem iou_comm (a b : Box) : iou a b = iou b a := by
  unfold iou iouDenom
  rw [interArea_comm, add_comm (area a) (area b)]

theorem nmsLoop_sublist (t : ℚ) (l : List Box) : List.Sublist (nmsLoop t l) l := by
  induction l using nmsLoop.induct t with
  | case1 => simp [nmsLoop]
  | case2 b rest ih =>
    rw [nmsLoop]
    exact (ih.trans (List.filter_sublist rest)).cons₂ b

theorem nmsLoop_pairwise (t : ℚ) (l : List Box) :
    (nmsLoop t l).Pairwise (fun a b => iou a b ≤ t) := by
  induction l using nmsLoop.induct t with
  | case1 => simp [nmsLoop]
  | case2 b rest ih =>
    rw [nmsLoop]
    refine List.Pairwise.cons ?_ ih
    intro c hc
    have hmem : c ∈ rest.filter (fun c => decide (iou b c ≤ t)) :=
      (nmsLoop_sublist t _).mem hc
    simpa using List.of_mem_filter hmem

theorem nmsLoop_sorted (t : ℚ) (l : List Box) (h : List.Sorted scoreGE l) :
    List.Sorted scoreGE (nmsLoop t l) :=
  List.Pairwise.sublist (nmsLoop_sublist t l) h

theorem nmsLoop_eq_self (t : ℚ) (l : List Box)
    (h : l.Pairwise (fun a b => iou a b ≤ t)) : nmsLoop t l = l := by
  induction l with
  | nil => simp [nmsLoop]
  | cons b rest ih =>
    rw [nmsLoop]
    have hall : ∀ c ∈ rest, (fun c => decide (iou b c ≤ t)) c = true := by
      intro c hc
      simpa using List.rel_of_pairwise_cons h hc
    rw [List.filter_eq_self.mpr hall, ih (List.Pairwise.of_cons h)]

theorem nms_sorted (boxes : List Box) (t : ℚ) : List.Sorted scoreGE (nms boxes t) :=
  nmsLoop_sorted t _ (List.sorted_insertionSort scoreGE boxes)

theorem nms_pairwise (boxes : List Box) (t : ℚ) :
    (nms boxes t).Pairwise (fun a b => iou a b ≤ t) :=
  nmsLoop_pairwise t _

theorem insertionSort_pair_left (a b : Box) (h : b.score ≤ a.score) :
    List.insertionSort scoreGE [a, b] = [a, b] := by
  simp [List.insertionSort, List.orderedInsert, scoreGE, h]

theorem insertionSort_pair_right (a b : Box) (h : ¬ b.score ≤ a.score) :
    List.insertionSort scoreGE [a, b] = [b, a] := by
  simp [List.insertionSort, List.orderedInsert, scoreGE, h]

theorem nmsLoop_pair_keep (t : ℚ) (a b : Box) (h : iou a b ≤ t) :
    nmsLoop t [a, b] = [a, b] := by
  rw [nmsLoop]
  simp [List.filter, h, nmsLoop]

theorem nmsLoop_pair_drop (t : ℚ) (a b : Box) (h : ¬ iou a b ≤ t) :
    nmsLoop t [a, b] = [a] := by
  rw [nmsLoop]
  simp [List.filter, h, nmsLoop]

theorem fireIn_pot (tid : Nat) (st : PCState) : pcPot (fireIn tid st).1 = pcPot st := by
  unfold fireIn
  split
  · rfl
  · rename_i h
    simp only [pcPot, Finset.card_insert_of_not_mem h]
    push_cast
    ring

theorem fireOut_pot (tid : Nat) (st : PCState) : pcPot (fireOut tid st).1 = pcPot st := by
  unfold fireOut
  split
  · rfl
  · rename_i h
    simp only [pcPot, Finset.card_insert_of_not_mem h]
    push_cast
    ring

theorem lineStepCore_pot (tid : Nat) (cx cy : ℚ) (prev : Option (ℚ × ℚ))
    (acc : PCState × Nat × Nat) (line : PCLine) :
    pcPot (lineStepCore tid cx cy prev acc line).1 = pcPot acc.1 := by
  unfold lineStepCore
  split
  · rfl
  · split
    · split
      · exact fireIn_pot tid acc.1
      · split
        · exact fireOut_pot tid acc.1
        · rfl
    · split
      · split
        · exact fireIn_pot tid acc.1
        · split
          · exact fireOut_pot tid acc.1
          · rfl
      · rfl

theorem lineStep_pot (tid : Nat) (cx cy : ℚ) (acc : PCState × Nat × Nat) (line : PCLine) :
    pcPot (lineStep tid cx cy acc line).1 = pcPot acc.1 :=
  lineStepCore_pot tid cx cy (acc.1.trackPositions tid) acc line

theorem fireIn_lines (tid : Nat) (st : PCState) : (fireIn tid st).1.lines = st.lines := by
  unfold fireIn
  split <;> rfl

theorem fireOut_lines (tid : Nat) (st : PCState) : (fireOut tid st).1.lines = st.lines := by
  unfold fireOut
  split <;> rfl

theorem lineStepCore_lines (tid : Nat) (cx cy : ℚ) (prev : Option (ℚ × ℚ))
    (acc : PCState × Nat × Nat) (line : PCLine) :
    (lineStepCore tid cx cy prev acc line).1.lines = acc.1.lines := by
  unfold lineStepCore
  split
  · rfl
  · split_ifs <;> first | rfl | exact fireIn_lines tid acc.1 | exact fireOut_lines tid acc.1

theorem lineStep_lines (tid : Nat) (cx cy : ℚ) (acc : PCState × Nat × Nat) (line : PCLine) :
    (lineStep tid cx cy acc line).1.lines = acc.1.lines :=
  lineStepCore_lines tid cx cy (acc.1.trackPositions tid) acc line

theorem rStep_dropped (B : Nat) (st : RState) (ev : REvent) :
    (rStep B st ev).dropped
      = st.dropped + (match ev with
                      | .enq _ => if queueFull B st.queue then 1 else 0
                      | .deq => 0) := by
  cases ev with
  | enq f =>
    unfold rStep readerEnqueue
    dsimp only
    split_ifs <;> simp
  | deq => simp [rStep]

/-- Preservation of a unary invariant by a left fold. -/
theorem foldl_invariant {σ α : Type} (I : σ → Prop) (f : σ → α → σ)
    (hf : ∀ s a, I s → I (f s a)) :
    ∀ (l : List α) (s : σ), I s → I (l.foldl f s) := by
  intro l
  induction l with
  | nil => intro s hs; simpa using hs
  | cons a l ih =>
    intro s hs
    simpa using ih (f s a) (hf s a hs)

/-- Accumulation of a reflexive-transitive relation along a left fold. -/
theorem foldl_rel {σ α : Type} (R : σ → σ → Prop)
    (hrefl : ∀ s, R s s) (htrans : ∀ a b c, R a b → R b c → R a c)
    (f : σ → α → σ) (hf : ∀ s a, R s (f s a)) :
    ∀ (l : List α) (s : σ), R s (l.foldl f s) := by
  intro l
  induction l with
  | nil => intro s; simpa using hrefl s
  | cons a l ih =>
    intro s
    have h1 : R s (f s a) := hf s a
    have h2 : R (f s a) (l.foldl f (f s a)) := ih (f s a)
    simpa using htrans _ _ _ h1 h2

/-- Along any run whose observed boolean can only rise, it rises at most once. -/
theorem flips_obsTrace_le_one {σ α : Type} (step : σ → α → σ) (obs : σ → Bool)
    (hmono : ∀ st c, obs st = true → obs (step st c) = true) :
    ∀ (calls : List α) (st : σ), flips (obsTrace step obs st calls) ≤ 1 := by
  intro calls
  induction calls with
  | nil => intro st; simp [obsTrace, flips]
  | cons c rest ih =>
    intro st
    obtain ⟨tl, htl⟩ := obsTrace_head step obs (step st c) rest
    have hunfold : obsTrace step obs st (c :: rest)
        = obs st :: obs (step st c) :: tl := by
      simp [obsTrace, htl]
    rw [hunfold]
    by_cases hs : obs (step st c) = true
    · have hall : ∀ b ∈ obsTrace step obs (step st c) rest, b = true :=
        obsTrace_all_true step obs hmono rest (step st c) hs
      have h0 : flips (obs (step st c) :: tl) = 0 := by
        rw [← htl]; exact flips_of_all_true _ hall
      simp [flips, h0]
      split <;> simp
    · have hfalse : obs (step st c) = false := by
        cases hcase : obs (step st c) <;> simp_all
      have hrest : flips (obs (step st c) :: tl) ≤ 1 := by
        rw [← htl]; exact ih (step st c)
      rw [hfalse] at hrest
      simp [flips, hfalse]
      exact hrest

theorem fireIn_crossed_mono (tid : Nat) (st : PCState) :
    st.totalCrossed ⊆ (fireIn tid st).1.totalCrossed := by
  unfold fireIn
  split
  · exact Finset.Subset.refl _
  · exact Finset.subset_insert _ _

theorem fireOut_crossed_mono (tid : Nat) (st : PCState) :
    st.totalCrossed ⊆ (fireOut tid st).1.totalCrossed := by
  unfold fireOut
  split
  · exact Finset.Subset.refl _
  · exact Finset.subset_insert _ _

theorem lineStepCore_crossed_mono (tid : Nat) (cx cy : ℚ) (prev : Option (ℚ × ℚ))
    (acc : PCState × Nat × Nat) (line : PCLine) :
    acc.1.totalCrossed ⊆ (lineStepCore tid cx cy prev acc line).1.totalCrossed := by
  unfold lineStepCore
  split
  · exact Finset.Subset.refl _
  · split
    · split
      · exact fireIn_crossed_mono tid acc.1
      · split
        · exact fireOut_crossed_mono tid acc.1
        · exact Finset.Subset.refl _
    · split
      · split
        · exact fireIn_crossed_mono tid acc.1
        · split
          · exact fireOut_crossed_mono tid acc.1
          · exact Finset.Subset.refl _
      · exact Finset.Subset.refl _

theorem setPos_crossed (tid : Nat) (cx cy : ℚ) (st : PCState) :
    (setPos tid cx cy st).totalCrossed = st.totalCrossed := rfl

theorem lineStep_crossed_mono (tid : Nat) (cx cy : ℚ) (acc : PCState × Nat × Nat)
    (line : PCLine) :
    acc.1.totalCrossed ⊆ (lineStep tid cx cy acc line).1.totalCrossed :=
  lineStepCore_crossed_mono tid cx cy (acc.1.trackPositions tid) acc line

theorem objStep_crossed_mono (acc : PCState × Nat × Nat) (ob : Nat × BBox) :
    acc.1.totalCrossed ⊆ (objStep acc ob).1.totalCrossed := by
  unfold objStep
  exact foldl_rel (fun a b => a.1.totalCrossed ⊆ b.1.totalCrossed)
    (fun _ => Finset.Subset.refl _) (fun _ _ _ => Finset.Subset.trans)
    _ (fun s l => lineStep_crossed_mono ob.1 _ _ s l) _ acc

theorem pcStep_crossed_mono (st : PCState) (c : List BBox × Option (List Nat)) :
    st.totalCrossed ⊆ (pcStep st c).totalCrossed := by
  unfold pcStep pcUpdate
  exact foldl_rel (fun a b => a.1.totalCrossed ⊆ b.1.totalCrossed)
    (fun _ => Finset.Subset.refl _) (fun _ _ _ => Finset.Subset.trans)
    _ objStep_crossed_mono _ (st, 0, 0)

/-- With the previous position equal to the current centroid, no crossing test
of any line can fire: both directional tests need a strict inequality on one
side of the line and the opposite non-strict inequality on the other. -/
theorem lineStepCore_self (tid : Nat) (cx cy : ℚ) (acc : PCState × Nat × Nat)
    (line : PCLine) : lineStepCore tid cx cy (some (cx, cy)) acc line = acc := by
  unfold lineStepCore
  dsimp only
  split_ifs with h1 h2 h3 h4 h5 h6
  · exact absurd (lt_of_le_of_lt h2.2 h2.1) (lt_irrefl _)
  · exact absurd (lt_of_le_of_lt h3.2 h3.1) (lt_irrefl _)
  · rfl
  · exact absurd (lt_of_le_of_lt h5.2 h5.1) (lt_irrefl _)
  · exact absurd (lt_of_le_of_lt h6.2 h6.1) (lt_irrefl _)
  · rfl
  · rfl

theorem lineStep_self (tid : Nat) (cx cy : ℚ) (acc : PCState × Nat × Nat) (line : PCLine)
    (h : acc.1.trackPositions tid = some (cx, cy)) :
    lineStep tid cx cy acc line = (setPos tid cx cy acc.1, acc.2) := by
  unfold lineStep
  rw [h, lineStepCore_self]

/-- Per-object processing agrees with the reading of the specification whenever
exactly one line is configured. -/
theorem objStep_spec_single (acc : PCState × Nat × Nat) (ob : Nat × BBox) (l : PCLine)
    (h : acc.1.lines = [l]) : objStep acc ob = objStepSpecC6 acc ob := by
  unfold objStep objStepSpecC6 lineStep
  rw [h]
  simp

theorem objStepSpecC6_lines (acc : PCState × Nat × Nat) (ob : Nat × BBox) :
    (objStepSpecC6 acc ob).1.lines = acc.1.lines := by
  unfold objStepSpecC6 setPos
  dsimp only
  exact (foldl_rel (fun a b => a.1.lines = b.1.lines)
    (fun _ => rfl) (fun _ _ _ h1 h2 => by exact h1.trans h2)
    _ (fun s li => (lineStepCore_lines ob.1 _ _ _ s li).symm) _ acc).symm

theorem foldl_objStep_spec_single (l : PCLine) :
    ∀ (zl : List (Nat × BBox)) (acc : PCState × Nat × Nat), acc.1.lines = [l] →
      zl.foldl objStep acc = zl.foldl objStepSpecC6 acc := by
  intro zl
  induction zl with
  | nil => intro acc _; rfl
  | cons ob rest ih =>
    intro acc h
    have hstep : objStep acc ob = objStepSpecC6 acc ob := objStep_spec_single acc ob l h
    have hlines : (objStepSpecC6 acc ob).1.lines = [l] := by
      rw [objStepSpecC6_lines acc ob, h]
    calc (ob :: rest).foldl objStep acc = rest.foldl objStep (objStep acc ob) := rfl
      _ = rest.foldl objStep (objStepSpecC6 acc ob) := by rw [hstep]
      _ = rest.foldl objStepSpecC6 (objStepSpecC6 acc ob) := ih _ hlines
      _ = (ob :: rest).foldl objStepSpecC6 acc := rfl

theorem newLCS_entry_latch (s : LineCrossState) (hA hB : List ℚ) (cur : Bool × Bool) :
    (newLCS s hA hB cur).1.hasCountedEntry
      = (s.hasCountedEntry || (newLCS s hA hB cur).2.1) := by
  unfold newLCS
  split <;> simp

theorem newLCS_exit_latch (s : LineCrossState) (hA hB : List ℚ) (cur : Bool × Bool) :
    (newLCS s hA hB cur).1.hasCountedExit
      = (s.hasCountedExit || (newLCS s hA hB cur).2.2) := by
  unfold newLCS
  split <;> simp

theorem newLCS_fire_entry_not_latched (s : LineCrossState) (hA hB : List ℚ)
    (cur : Bool × Bool) (h : (newLCS s hA hB cur).2.1 = true) :
    s.hasCountedEntry = false := by
  unfold newLCS at h
  split at h
  · simp at h
  · simp only [Bool.and_eq_true, Bool.not_eq_true'] at h
    exact h.2

theorem newLCS_fire_exit_not_latched (s : LineCrossState) (hA hB : List ℚ)
    (cur : Bool × Bool) (h : (newLCS s hA hB cur).2.2 = true) :
    s.hasCountedExit = false := by
  unfold newLCS at h
  split at h
  · simp at h
  · simp only [Bool.and_eq_true, Bool.not_eq_true'] at h
    exact h.2

theorem newLCS_enter_flip (s : LineCrossState) (hA hB : List ℚ) (cur : Bool × Bool) :
    (if (newLCS s hA hB cur).2.1 then (1 : ℤ) else 0)
      = (if (newLCS s hA hB cur).1.hasCountedEntry = true ∧ s.hasCountedEntry = false
         then 1 else 0) := by
  cases hfe : (newLCS s hA hB cur).2.1
  · rw [newLCS_entry_latch, hfe]
    cases hs : s.hasCountedEntry <;> simp
  · rw [newLCS_entry_latch, hfe]
    have hnl := newLCS_fire_entry_not_latched s hA hB cur hfe
    simp [hnl]

theorem newLCS_exit_flip (s : LineCrossState) (hA hB : List ℚ) (cur : Bool × Bool) :
    (if (newLCS s hA hB cur).2.2 then (1 : ℤ) else 0)
      = (if (newLCS s hA hB cur).1.hasCountedExit = true ∧ s.hasCountedExit = false
         then 1 else 0) := by
  cases hfx : (newLCS s hA hB cur).2.2
  · rw [newLCS_exit_latch, hfx]
    cases hs : s.hasCountedExit <;> simp
  · rw [newLCS_exit_latch, hfx]
    have hnl := newLCS_fire_exit_not_latched s hA hB cur hfx
    simp [hnl]

theorem doorStep_entry_mono (tid : Nat) (cx cy : ℚ) (st : MState) (e : String × Door)
    (t : Nat) (d : String) (h : (st.trackStates t d).hasCountedEntry = true) :
    ((doorStep tid cx cy st e).trackStates t d).hasCountedEntry = true := by
  unfold doorStep updTS
  dsimp only
  split_ifs with hc
  · obtain ⟨ht, hd⟩ := hc
    subst ht
    subst hd
    rw [newLCS_entry_latch, h]
    rfl
  · exact h

theorem doorStep_exit_mono (tid : Nat) (cx cy : ℚ) (st : MState) (e : String × Door)
    (t : Nat) (d : String) (h : (st.trackStates t d).hasCountedExit = true) :
    ((doorStep tid cx cy st e).trackStates t d).hasCountedExit = true := by
  unfold doorStep updTS
  dsimp only
  split_ifs with hc
  · obtain ⟨ht, hd⟩ := hc
    subst ht
    subst hd
    rw [newLCS_exit_latch, h]
    rfl
  · exact h

theorem mUpdate_entry_mono (st : MState) (objs : List (Nat × BBox)) (t : Nat) (d : String)
    (h : (st.trackStates t d).hasCountedEntry = true) :
    ((mUpdate st objs).trackStates t d).hasCountedEntry = true := by
  unfold mUpdate
  refine foldl_rel
    (fun a b => (a.trackStates t d).hasCountedEntry = true →
                (b.trackStates t d).hasCountedEntry = true)
    (fun _ => by exact fun hh => hh) (fun _ _ _ h1 h2 => by exact fun hh => h2 (h1 hh)) _ ?_ objs st h
  intro s ob hh
  unfold objStepM
  exact foldl_rel
    (fun a b => (a.trackStates t d).hasCountedEntry = true →
                (b.trackStates t d).hasCountedEntry = true)
    (fun _ => by exact fun hh => hh) (fun _ _ _ h1 h2 => by exact fun hh => h2 (h1 hh)) _
    (fun s2 e hh2 => doorStep_entry_mono ob.1 _ _ s2 e t d hh2) _ s hh

theorem mUpdate_exit_mono (st : MState) (objs : List (Nat × BBox)) (t : Nat) (d : String)
    (h : (st.trackStates t d).hasCountedExit = true) :
    ((mUpdate st objs).trackStates t d).hasCountedExit = true := by
  unfold mUpdate
  refine foldl_rel
    (fun a b => (a.trackStates t d).hasCountedExit = true →
                (b.trackStates t d).hasCountedExit = true)
    (fun _ => by exact fun hh => hh) (fun _ _ _ h1 h2 => by exact fun hh => h2 (h1 hh)) _ ?_ objs st h
  intro s ob hh
  unfold objStepM
  exact foldl_rel
    (fun a b => (a.trackStates t d).hasCountedExit = true →
                (b.trackStates t d).hasCountedExit = true)
    (fun _ => by exact fun hh => hh) (fun _ _ _ h1 h2 => by exact fun hh => h2 (h1 hh)) _
    (fun s2 e hh2 => doorStep_exit_mono ob.1 _ _ s2 e t d hh2) _ s hh

/-- Occupancy bookkeeping of one door iteration. -/
theorem doorStep_occInv (tid : Nat) (cx cy : ℚ) (st : MState) (e : String × Door)
    (h : ∀ d, (st.counts d).occupancy = (st.counts d).enter - (st.counts d).exits) :
    ∀ d, ((doorStep tid cx cy st e).counts d).occupancy
      = ((doorStep tid cx cy st e).counts d).enter
        - ((doorStep tid cx cy st e).counts d).exits := by
  intro d
  unfold doorStep
  dsimp only
  split_ifs with hd
  · have hc := h e.1
    simp only [bumpCounts]
    split_ifs <;> omega
  · exact h d

theorem mUpdate_occInv (st : MState) (objs : List (Nat × BBox))
    (h : ∀ d, (st.counts d).occupancy = (st.counts d).enter - (st.counts d).exits) :
    ∀ d, ((mUpdate st objs).counts d).occupancy
      = ((mUpdate st objs).counts d).enter - ((mUpdate st objs).counts d).exits := by
  unfold mUpdate
  refine foldl_invariant
    (fun s => ∀ d, (s.counts d).occupancy = (s.counts d).enter - (s.counts d).exits)
    _ ?_ objs st h
  intro s ob hh
  unfold objStepM
  exact foldl_invariant
    (fun s2 => ∀ d, (s2.counts d).occupancy = (s2.counts d).enter - (s2.counts d).exits)
    _ (fun s2 e hh2 => doorStep_occInv ob.1 _ _ s2 e hh2) _ s hh

theorem doorStep_enter_eq (tid : Nat) (cx cy : ℚ) (st : MState) (e : String × Door) :
    ((doorStep tid cx cy st e).counts e.1).enter
      = (st.counts e.1).enter
        + (if ((doorStep tid cx cy st e).trackStates tid e.1).hasCountedEntry = true ∧
              (st.trackStates tid e.1).hasCountedEntry = false then 1 else 0) := by
  unfold doorStep updTS
  dsimp only
  simp only [eq_self_iff_true, and_self, ite_true]
  simp only [bumpCounts]
  rw [newLCS_enter_flip]

theorem doorStep_exit_eq (tid : Nat) (cx cy : ℚ) (st : MState) (e : String × Door) :
    ((doorStep tid cx cy st e).counts e.1).exits
      = (st.counts e.1).exits
        + (if ((doorStep tid cx cy st e).trackStates tid e.1).hasCountedExit = true ∧
              (st.trackStates tid e.1).hasCountedExit = false then 1 else 0) := by
  unfold doorStep updTS
  dsimp only
  simp only [eq_self_iff_true, and_self, ite_true]
  simp only [bumpCounts]
  rw [newLCS_exit_flip]

/-- C2.  Occupancy consistency: for every door and every reachable sequence of
MultiDoorCounter.update calls starting from the all-zero counters, occupancy
equals enter minus exit; and PassengerCounter.get_counts always returns
total = in - out. -/
theorem claim_C2_occupancy_consistency :
    (∀ (cfg : List (String × Door)) (calls : List (List (Nat × BBox))) (d : String),
       ((calls.foldl mUpdate (mInit cfg)).counts d).occupancy
         = ((calls.foldl mUpdate (mInit cfg)).counts d).enter
           - ((calls.foldl mUpdate (mInit cfg)).counts d).exits) ∧
    (∀ st : PCState,
       (pcGetCounts st).total = (pcGetCounts st).inCnt - (pcGetCounts st).outCnt) := by
  constructor
  · intro cfg calls d
    refine foldl_invariant
      (fun s => ∀ d, (s.counts d).occupancy = (s.counts d).enter - (s.counts d).exits)
      mUpdate (fun s objs hh => mUpdate_occInv s objs hh) calls (mInit cfg) ?_ d
    intro d2
    simp [mInit]
  · intro st
    rfl

/-- C5.  NMS idempotence: running the greedy suppression on its own output
with the same threshold returns that output unchanged. -/
theorem claim_C5_nms_idempotent (boxes : List Box) (t : ℚ) :
    nms (nms boxes t) t = nms boxes t := by
  unfold nms
  rw [List.Sorted.insertionSort_eq
    (nmsLoop_sorted t _ (List.sorted_insertionSort scoreGE boxes))]
  exact nmsLoop_eq_self t _ (nmsLoop_pairwise t _)

/-- C9.  Degenerate-box IoU safety: for boxes with x2 >= x1 and y2 >= y1,
including zero-width or zero-height boxes, the IoU denominator
area_a + area_b - intersection + 1e-6 is strictly positive, so the division
in nms is never by zero. -/
theorem claim_C9_iou_denominator_positive (a b : Box)
    (hax : a.x1 ≤ a.x2) (hay : a.y1 ≤ a.y2) (hbx : b.x1 ≤ b.x2) (hby : b.y1 ≤ b.y2) :
    0 < iouDenom a b := by
  have hwa : (0 : ℚ) ≤ a.x2 - a.x1 := sub_nonneg.mpr hax
  have hha : (0 : ℚ) ≤ a.y2 - a.y1 := sub_nonneg.mpr hay
  have hw : max 0 (min a.x2 b.x2 - max a.x1 b.x1) ≤ a.x2 - a.x1 :=
    max_le hwa (sub_le_sub (min_le_left _ _) (le_max_left _ _))
  have hh : max 0 (min a.y2 b.y2 - max a.y1 b.y1) ≤ a.y2 - a.y1 :=
    max_le hha (sub_le_sub (min_le_left _ _) (le_max_left _ _))
  have hwnn : (0 : ℚ) ≤ max 0 (min a.x2 b.x2 - max a.x1 b.x1) := le_max_left _ _
  have hhnn : (0 : ℚ) ≤ max 0 (min a.y2 b.y2 - max a.y1 b.y1) := le_max_left _ _
  have hinter : interArea a b ≤ area a := by
    unfold interArea area
    exact mul_le_mul hw hh hhnn hwa
  have hareab : (0 : ℚ) ≤ area b := by
    unfold area
    exact mul_nonneg (sub_nonneg.mpr hbx) (sub_nonneg.mpr hby)
  unfold iouDenom
  linarith

/-- Witness for C9 at a concrete degenerate (zero-width) box. -/
theorem claim_C9_witness :
    ((0 : ℚ) ≤ 0 ∧ (0 : ℚ) ≤ 5) ∧ 0 < iouDenom ⟨0, 0, 0, 5, 1, 0⟩ ⟨0, 0, 0, 5, 1, 0⟩ :=
  ⟨⟨by norm_num, by norm_num⟩,
   claim_C9_iou_denominator_positive ⟨0, 0, 0, 5, 1, 0⟩ ⟨0, 0, 0, 5, 1, 0⟩
     (by norm_num) (by norm_num) (by norm_num) (by norm_num)⟩

/-- C10.  Implicit identity default: update with track_ids = None behaves
exactly as update with the identity list [0, 1, ..., len(boxes)-1], so all
per-track state is keyed by detection-list position in that mode. -/
theorem claim_C10_identity_default (st : PCState) (boxes : List BBox) :
    pcUpdate st boxes none = pcUpdate st boxes (some (List.range boxes.length)) := rfl

attribute [local semireducible] Rat.mul Rat.inv Rat.add Rat.sub in
theorem claim_C3_door_transition_scenario :
    ((c3Phase1.foldl mUpdate (mInit door1Cfg)).counts ("door1") = ⟨1, 0, 1⟩) ∧
    (((c3Phase1 ++ c3Phase2).foldl mUpdate (mInit door1Cfg)).counts ("door1") = ⟨1, 1, 0⟩) := by
  constructor <;> decide

/-- C4.  NMS pairwise correctness: with IoU above the threshold only the
higher-confidence box of a pair survives; with IoU at or below the threshold
both survive; no pair of output boxes exceeds the threshold; and the output is
sorted by descending confidence. -/
theorem claim_C4_nms_pairwise_correctness :
    (∀ (a b : Box) (t : ℚ), b.score < a.score → t < iou a b → nms [a, b] t = [a]) ∧
    (∀ (a b : Box) (t : ℚ), a.score < b.score → t < iou a b → nms [a, b] t = [b]) ∧
    (∀ (a b : Box) (t : ℚ), iou a b ≤ t →
       a ∈ nms [a, b] t ∧ b ∈ nms [a, b] t ∧ (nms [a, b] t).length = 2) ∧
    (∀ (boxes : List Box) (t : ℚ), (nms boxes t).Pairwise (fun x y => iou x y ≤ t)) ∧
    (∀ (boxes : List Box) (t : ℚ), List.Sorted scoreGE (nms boxes t)) := by
  refine ⟨?_, ?_, ?_, nms_pairwise, nms_sorted⟩
  · intro a b t hscore hiou
    unfold nms
    rw [insertionSort_pair_left a b hscore.le]
    exact nmsLoop_pair_drop t a b (not_le.mpr hiou)
  · intro a b t hscore hiou
    unfold nms
    rw [insertionSort_pair_right a b (not_le.mpr hscore)]
    refine nmsLoop_pair_drop t b a ?_
    rw [iou_comm]
    exact not_le.mpr hiou
  · intro a b t hiou
    by_cases hscore : b.score ≤ a.score
    · unfold nms
      rw [insertionSort_pair_left a b hscore, nmsLoop_pair_keep t a b hiou]
      simp
    · unfold nms
      rw [insertionSort_pair_right a b hscore,
        nmsLoop_pair_keep t b a (by rw [iou_comm]; exact hiou)]
      simp

attribute [local semireducible] Rat.mul Rat.inv Rat.add Rat.sub in
theorem claim_C4_witness :
    ((1 : ℚ) / 2 < (9 : ℚ) / 10 ∧ (1 : ℚ) / 2 < iou ⟨0, 0, 10, 10, 9/10, 0⟩ ⟨0, 0, 10, 10, 1/2, 0⟩ ∧
      nms [⟨0, 0, 10, 10, 9/10, 0⟩, ⟨0, 0, 10, 10, 1/2, 0⟩] (1/2) = [⟨0, 0, 10, 10, 9/10, 0⟩]) ∧
    (iou ⟨0, 0, 10, 10, 9/10, 0⟩ ⟨100, 100, 110, 110, 3/4, 0⟩ ≤ (1 : ℚ) / 2 ∧
      ⟨0, 0, 10, 10, 9/10, 0⟩ ∈ nms [⟨0, 0, 10, 10, 9/10, 0⟩, ⟨100, 100, 110, 110, 3/4, 0⟩] (1/2) ∧
      ⟨100, 100, 110, 110, 3/4, 0⟩ ∈ nms [⟨0, 0, 10, 10, 9/10, 0⟩, ⟨100, 100, 110, 110, 3/4, 0⟩] (1/2) ∧
      (nms [⟨0, 0, 10, 10, 9/10, 0⟩, ⟨100, 100, 110, 110, 3/4, 0⟩] (1/2)).length = 2) :=
  ⟨⟨by norm_num, by decide,
    claim_C4_nms_pairwise_correctness.1 _ _ _ (by norm_num) (by decide)⟩,
   ⟨by decide,
    claim_C4_nms_pairwise_correctness.2.2.1 _ _ _ (by decide)⟩⟩

attribute [local semireducible] Rat.mul Rat.inv Rat.add Rat.sub in
theorem claim_C6_counterexample :
    (pcUpdate c6State1 [c6Box1] none).1.inCount = 0 ∧
    (pcUpdateSpecC6 c6State1 [c6Box1] none).1.inCount = 1 := by
  constructor <;> decide

/-- C6 (amended).  The stored centroid is rewritten unconditionally at the end
of every line iteration, not once per track: hence (1) with a single
configured line the update behaves exactly as the claim describes, (2) after
any line iteration the stored centroid is the current one, and (3) a line
iteration that already sees the current centroid as the previous position can
never fire a crossing and leaves counters and crossed set unchanged. -/
theorem claim_C6_amended :
    (∀ (st : PCState) (l : PCLine) (boxes : List BBox) (ids : Option (List Nat)),
       st.lines = [l] → pcUpdate st boxes ids = pcUpdateSpecC6 st boxes ids) ∧
    (∀ (tid : Nat) (cx cy : ℚ) (acc : PCState × Nat × Nat) (line : PCLine),
       (lineStep tid cx cy acc line).1.trackPositions tid = some (cx, cy)) ∧
    (∀ (tid : Nat) (cx cy : ℚ) (acc : PCState × Nat × Nat) (line : PCLine),
       acc.1.trackPositions tid = some (cx, cy) →
         lineStep tid cx cy acc line = (setPos tid cx cy acc.1, acc.2)) := by
  refine ⟨?_, ?_, fun tid cx cy acc line h => lineStep_self tid cx cy acc line h⟩
  · intro st l boxes ids h
    unfold pcUpdate pcUpdateSpecC6
    exact foldl_objStep_spec_single l _ (st, 0, 0) h
  · intro tid cx cy acc line
    unfold lineStep setPos
    simp

/-- Witness for C6 (amended) on a concrete single-line counter. -/
theorem claim_C6_witness :
    (pcInit (some [c6LineLow])).lines = [c6LineLow] ∧
    pcUpdate (pcInit (some [c6LineLow])) [c6Box1] none
      = pcUpdateSpecC6 (pcInit (some [c6LineLow])) [c6Box1] none :=
  ⟨rfl, claim_C6_amended.1 (pcInit (some [c6LineLow])) c6LineLow [c6Box1] none rfl⟩

attribute [local semireducible] Rat.mul Rat.inv Rat.add Rat.sub in
theorem claim_C8_counterexample :
    (c8AfterReset.trackStates 1 ("door1")).hasCountedEntry = true ∧
    ((c8Recross.foldl mUpdate c8AfterReset).counts ("door1")).enter = 0 := by
  constructor <;> decide

/-- C8 (amended).  PassengerCounter.reset restores the freshly constructed
state — counts, per-track positions, per-track states and the crossed set are
all cleared, so a track can be counted again; the multi-door reset exposed by
the server zeroes enter, exit and occupancy for every door but leaves the
per-track latch state untouched. -/
theorem claim_C8_amended :
    (∀ st : PCState, pcReset st = pcInit (some st.lines)) ∧
    (∀ (st : MState) (d : String), (doorReset st).counts d = ⟨0, 0, 0⟩) ∧
    (∀ st : MState, (doorReset st).trackStates = st.trackStates ∧
       (doorReset st).doors = st.doors) :=
  ⟨fun _ => rfl, fun _ _ => rfl, fun _ => ⟨rfl, rfl⟩⟩

theorem rRun_dropped (B : Nat) :
    ∀ (evs : List REvent) (st : RState),
      (rRun B st evs).dropped = st.dropped + discards B st evs := by
  intro evs
  induction evs with
  | nil => intro st; simp [rRun, discards]
  | cons ev rest ih =>
    intro st
    cases ev with
    | enq f =>
      have h1 : (rRun B st (REvent.enq f :: rest)).dropped
          = (rRun B (rStep B st (REvent.enq f)) rest).dropped := rfl
      have hd : discards B st (REvent.enq f :: rest)
          = (if queueFull B st.queue then 1 else 0)
            + discards B (rStep B st (REvent.enq f)) rest := rfl
      rw [h1, ih, rStep_dropped, hd]
      by_cases hq : queueFull B st.queue
      · simp [hq]
        omega
      · simp [hq]
    | deq =>
      have h1 : (rRun B st (REvent.deq :: rest)).dropped
          = (rRun B (rStep B st REvent.deq) rest).dropped := rfl
      have hd : discards B st (REvent.deq :: rest)
          = 0 + discards B (rStep B st REvent.deq) rest := rfl
      rw [h1, ih, rStep_dropped, hd]
      dsimp only
      omega

theorem rStep_len_le (B : Nat) (st : RState) (ev : REvent) (hB : 0 < B)
    (h : st.queue.length ≤ B) : (rStep B st ev).queue.length ≤ B := by
  cases ev with
  | enq f =>
    unfold rStep readerEnqueue
    dsimp only
    split_ifs with hq
    · simp only [List.length_append, List.length_tail, List.length_cons, List.length_nil]
      have h1 : 1 ≤ st.queue.length := le_trans hB hq.2
      omega
    · have hlt : st.queue.length < B := by
        unfold queueFull at hq
        push_neg at hq
        exact hq hB
      simp only [List.length_append, List.length_cons, List.length_nil]
      omega
  | deq =>
    simp only [rStep, List.length_tail]
    omega

/-- C7.  Backpressure drop policy: an enqueue against a full queue discards
exactly the oldest buffered frame and bumps the drop counter; an enqueue
against a non-full queue appends with no drop and no counter change; the
enqueue operation always completes with the just-produced frame newest in the
queue (the producer is never stuck holding it); over any producer/consumer
interleaving the dropped counter rises by exactly the number of frames
discarded; and the queue never exceeds its capacity B. -/
theorem claim_C7_backpressure_drop_policy :
    (∀ (B : Nat) (st : RState) (f : Nat), queueFull B st.queue →
       readerEnqueue B st f = ⟨st.queue.tail ++ [f], st.dropped + 1⟩) ∧
    (∀ (B : Nat) (st : RState) (f : Nat), ¬ queueFull B st.queue →
       readerEnqueue B st f = ⟨st.queue ++ [f], st.dropped⟩) ∧
    (∀ (B : Nat) (st : RState) (f : Nat),
       (readerEnqueue B st f).queue.getLast? = some f) ∧
    (∀ (B : Nat) (st : RState) (evs : List REvent),
       (rRun B st evs).dropped = st.dropped + discards B st evs) ∧
    (∀ (B : Nat) (st : RState) (evs : List REvent), 0 < B → st.queue.length ≤ B →
       (rRun B st evs).queue.length ≤ B) := by
  refine ⟨?_, ?_, ?_, fun B st evs => rRun_dropped B evs st, ?_⟩
  · intro B st f hq
    unfold readerEnqueue
    rw [if_pos hq]
  · intro B st f hq
    unfold readerEnqueue
    rw [if_neg hq]
  · intro B st f
    unfold readerEnqueue
    split_ifs <;> exact List.getLast?_concat _
  · intro B st evs hB h
    exact foldl_invariant (fun s => s.queue.length ≤ B) (rStep B)
      (fun s ev hi => rStep_len_le B s ev hB hi) evs st h

/-- Witness for C7 at capacity 1 and 2 with concrete frames. -/
theorem claim_C7_witness :
    (queueFull 1 [9] ∧ readerEnqueue 1 ⟨[9], 0⟩ 5 = ⟨[5], 1⟩) ∧
    (¬ queueFull 2 [9] ∧ readerEnqueue 2 ⟨[9], 0⟩ 5 = ⟨[9, 5], 0⟩) ∧
    (0 < 1 ∧ ([] : List Nat).length ≤ 1 ∧
      (rRun 1 ⟨[], 0⟩ [REvent.enq 3, REvent.enq 4, REvent.deq, REvent.enq 6]).queue.length ≤ 1) :=
  ⟨⟨by decide, claim_C7_backpressure_drop_policy.1 1 ⟨[9], 0⟩ 5 (by decide)⟩,
   ⟨by decide, claim_C7_backpressure_drop_policy.2.1 2 ⟨[9], 0⟩ 5 (by decide)⟩,
   ⟨by decide, by decide,
    claim_C7_backpressure_drop_policy.2.2.2.2 1 ⟨[], 0⟩
      [REvent.enq 3, REvent.enq 4, REvent.deq, REvent.enq 6] (by decide) (by decide)⟩⟩

theorem objStep_pot (acc : PCState × Nat × Nat) (ob : Nat × BBox) :
    pcPot (objStep acc ob).1 = pcPot acc.1 := by
  unfold objStep
  exact (foldl_rel (fun a b => pcPot a.1 = pcPot b.1)
    (fun _ => rfl) (fun _ _ _ h1 h2 => by exact h1.trans h2)
    _ (fun s l => (lineStep_pot ob.1 _ _ s l).symm) _ acc).symm

theorem pcStep_pot (st : PCState) (c : List BBox × Option (List Nat)) :
    pcPot (pcStep st c) = pcPot st := by
  unfold pcStep pcUpdate
  exact (foldl_rel (fun a b => pcPot a.1 = pcPot b.1)
    (fun _ => rfl) (fun _ _ _ h1 h2 => by exact h1.trans h2)
    _ (fun s ob => (objStep_pot s ob).symm) _ (st, 0, 0)).symm

theorem pcRun_pot (lines : Option (List PCLine)) (calls : List (List BBox × Option (List Nat))) :
    pcPot (calls.foldl pcStep (pcInit lines)) = 0 := by
  have h : pcPot (pcInit lines) = pcPot (calls.foldl pcStep (pcInit lines)) :=
    foldl_rel (fun a b => pcPot a = pcPot b) (fun _ => rfl)
      (fun _ _ _ h1 h2 => by exact h1.trans h2) pcStep (fun s c => (pcStep_pot s c).symm)
      calls (pcInit lines)
  replace h := h.symm
  simpa [pcPot, pcInit] using h

theorem objStep_lines (acc : PCState × Nat × Nat) (ob : Nat × BBox) :
    (objStep acc ob).1.lines = acc.1.lines := by
  unfold objStep
  exact (foldl_rel (fun a b => a.1.lines = b.1.lines)
    (fun _ => rfl) (fun _ _ _ h1 h2 => by exact h1.trans h2)
    _ (fun s l => (lineStep_lines ob.1 _ _ s l).symm) _ acc).symm

/-- C1.  Exactly-once latching.  Single-line counter: along any run from a
fresh state, the membership of a given track in the process-wide crossed set rises
at most once (so the track contributes at most one crossing event, hence at
most one increment of either direction, over its whole lifetime), and the
total of both cumulative counters always equals the size of the crossed set.
Door counter: the per-(track, door) enter and exit latches of each track rise at
most once along any run, and one door iteration bumps the enter (exit) count of a door exactly when the corresponding latch rises. -/
theorem claim_C1_exactly_once_latching :
    (∀ (lines : Option (List PCLine)) (calls : List (List BBox × Option (List Nat))) (t : Nat),
       flips (obsTrace pcStep (fun st => decide (t ∈ st.totalCrossed)) (pcInit lines) calls) ≤ 1) ∧
    (∀ (lines : Option (List PCLine)) (calls : List (List BBox × Option (List Nat))),
       ((calls.foldl pcStep (pcInit lines)).inCount : ℤ)
           + (calls.foldl pcStep (pcInit lines)).outCount
         = (calls.foldl pcStep (pcInit lines)).totalCrossed.card) ∧
    (∀ (cfg : List (String × Door)) (calls : List (List (Nat × BBox))) (t : Nat) (d : String),
       flips (obsTrace mUpdate (fun st => (st.trackStates t d).hasCountedEntry)
         (mInit cfg) calls) ≤ 1 ∧
       flips (obsTrace mUpdate (fun st => (st.trackStates t d).hasCountedExit)
         (mInit cfg) calls) ≤ 1) ∧
    (∀ (tid : Nat) (cx cy : ℚ) (st : MState) (e : String × Door),
       ((doorStep tid cx cy st e).counts e.1).enter
         = (st.counts e.1).enter
           + (if ((doorStep tid cx cy st e).trackStates tid e.1).hasCountedEntry = true ∧
                 (st.trackStates tid e.1).hasCountedEntry = false then 1 else 0) ∧
       ((doorStep tid cx cy st e).counts e.1).exits
         = (st.counts e.1).exits
           + (if ((doorStep tid cx cy st e).trackStates tid e.1).hasCountedExit = true ∧
                 (st.trackStates tid e.1).hasCountedExit = false then 1 else 0)) := by
  refine ⟨?_, ?_, ?_, fun tid cx cy st e =>
    ⟨doorStep_enter_eq tid cx cy st e, doorStep_exit_eq tid cx cy st e⟩⟩
  · intro lines calls t
    refine flips_obsTrace_le_one pcStep _ ?_ calls (pcInit lines)
    intro st c h
    rw [decide_eq_true_eq] at h ⊢
    exact pcStep_crossed_mono st c h
  · intro lines calls
    have h := pcRun_pot lines calls
    unfold pcPot at h
    omega
  · intro cfg calls t d
    constructor
    · refine flips_obsTrace_le_one mUpdate _ ?_ calls (mInit cfg)
      intro st c h
      exact mUpdate_entry_mono st c t d h
    · refine flips_obsTrace_le_one mUpdate _ ?_ calls (mInit cfg)
      intro st c h
      exact mUpdate_exit_mono st c t d h

end SPC
